import Mathlib

/-!
Shallow embedding of the Web_nail storefront's cart, payment-verification,
webhook, and order-number logic, together with proofs of the spec's claims.

Monetary amounts are modelled as exact rationals, document ids and other
gateway identifiers as strings, and the document store as in-memory lists of
Product and Order records.  HMAC-SHA256 is treated as an abstract function
parameter `hmac : String → String → String` (key, message ↦ hex digest).
-/

namespace WebNail

/-- JS `Math.round(q * 100) / 100`: round to two decimals, halves toward
positive infinity (all amounts in the routes are non-negative). -/
def round2 (q : ℚ) : ℚ := (⌊q * 100 + 1 / 2⌋ : ℚ) / 100

/-- A product variant: a (size, design) pairing with its own stock count.
Stock is an integer so that an unguarded decrement can drive it negative. -/
structure Variant where
  size : String
  design : String
  stock : Int
deriving DecidableEq, Repr

structure ProductImage where
  url : String
  isPrimary : Bool
deriving DecidableEq, Repr

/-- The Product document fields read by the cart and webhook routes. -/
structure Product where
  id : String
  title : String
  price : ℚ
  images : List ProductImage
  variants : List Variant
  active : Bool
deriving DecidableEq, Repr

structure ItemVariant where
  size : String
  design : String
deriving DecidableEq, Repr

/-- An order line item: a denormalized snapshot of the product at checkout. -/
structure OrderItem where
  product : String
  title : String
  price : ℚ
  quantity : Nat
  variant : ItemVariant
  image : Option String
deriving DecidableEq, Repr

structure PaymentInfo where
  status : String
  amount : ℚ
  razorpayOrderId : String
  razorpayPaymentId : Option String
  paidAt : Option Nat
deriving DecidableEq, Repr

/-- The Order document fields read or written by the routes under study. -/
structure Order where
  id : String
  user : String
  orderNumber : Option String
  createdAt : Nat
  items : List OrderItem
  subtotal : ℚ
  tax : ℚ
  shipping : ℚ
  discount : ℚ
  total : ℚ
  status : String
  paymentInfo : PaymentInfo
deriving DecidableEq, Repr

/-- The document store: all Order and Product documents. -/
structure DB where
  orders : List Order
  products : List Product
deriving DecidableEq, Repr

/-- `Product.findById`: first document whose id matches. -/
def findProduct (ps : List Product) (pid : String) : Option Product :=
  ps.find? (fun p => p.id == pid)

/-- `product.variants.find(v => v.size === size && v.design === design)`. -/
def findVariant (vs : List Variant) (size design : String) : Option Variant :=
  vs.find? (fun v => v.size == size && v.design == design)

/-- `product.save()`: replace the stored document with the mutated one. -/
def saveProduct (ps : List Product) (p : Product) : List Product :=
  ps.map (fun q => if q.id == p.id then p else q)

/-- `Order.findById`. -/
def findOrder (os : List Order) (oid : String) : Option Order :=
  os.find? (fun o => o.id == oid)

/-- `order.save()`. -/
def saveOrder (os : List Order) (o : Order) : List Order :=
  os.map (fun q => if q.id == o.id then o else q)

/-- JS `a || b` on possibly-undefined strings: an empty string is falsy. -/
def jsOrStr : Option String → Option String → Option String
  | some s, b => if s = "" then b else some s
  | none, b => b

/-- `product.images.find(img => img.isPrimary)?.url || product.images[0]?.url`. -/
def primaryImage (p : Product) : Option String :=
  jsOrStr ((p.images.find? (fun img => img.isPrimary)).map (fun img => img.url))
    (p.images.head?.map (fun img => img.url))

/-- One submitted cart line as accepted by `POST /cart/validate`.  The client
may attach a `price`; the route never reads it. -/
structure CartItemReq where
  productId : String
  price : ℚ
  size : String
  design : String
  quantity : Nat
deriving DecidableEq, Repr

/-- The JSON body returned by a successful `POST /cart/validate`. -/
structure ValidateResp where
  items : List OrderItem
  subtotal : ℚ
  tax : ℚ
  shipping : ℚ
  total : ℚ
deriving DecidableEq, Repr

/-- The `for (const item of items)` loop of `POST /cart/validate`: look the
product up, reject inactive products, missing variants and short stock, and
accumulate the server-priced line list and the subtotal. -/
def validateItems (ps : List Product) : List CartItemReq → Except String (List OrderItem × ℚ)
  | [] => .ok ([], 0)
  | i :: rest =>
    match findProduct ps i.productId with
    | none => .error "product is no longer available"
    | some product =>
      if !product.active then .error "product is no longer available"
      else
        match findVariant product.variants i.size i.design with
        | none => .error "variant is no longer available"
        | some variant =>
          if variant.stock < (i.quantity : Int) then .error "insufficient stock"
          else
            match validateItems ps rest with
            | .error e => .error e
            | .ok (vs, sub) =>
              .ok ({ product := product.id, title := product.title,
                     price := product.price, quantity := i.quantity,
                     variant := { size := variant.size, design := variant.design },
                     image := primaryImage product } :: vs,
                   product.price * (i.quantity : ℚ) + sub)

/-- `POST /cart/validate`: the express-validator guards (non-empty array,
Mongo ids, quantity 1..10) followed by the validation loop and the
tax/shipping/total computation, each returned amount rounded to 2 decimals. -/
def validateCart (isMongoId : String → Bool) (ps : List Product)
    (items : List CartItemReq) : Except String ValidateResp :=
  if items.isEmpty then .error "validation failed"
  else if items.any (fun i => !(isMongoId i.productId)) then .error "validation failed"
  else if items.any (fun i => i.quantity < 1 || 10 < i.quantity) then .error "validation failed"
  else
    match validateItems ps items with
    | .error e => .error e
    | .ok (vs, subtotal) =>
      let tax := subtotal * (8 / 100)
      let shipping : ℚ := if 50 ≤ subtotal then 0 else 999 / 100
      let total := subtotal + tax + shipping
      .ok { items := vs, subtotal := round2 subtotal, tax := round2 tax,
            shipping := round2 shipping, total := round2 total }

/-- Whether one submitted line fails any of the three route checks
(product missing or inactive, variant missing, quantity over stock). -/
def itemFails (ps : List Product) (i : CartItemReq) : Bool :=
  match findProduct ps i.productId with
  | none => true
  | some p =>
    if !p.active then true
    else
      match findVariant p.variants i.size i.design with
      | none => true
      | some v => decide (v.stock < (i.quantity : Int))

/-- The subtotal determined by a list of priced lines. -/
def itemsSubtotal (items : List OrderItem) : ℚ :=
  items.foldr (fun it acc => it.price * (it.quantity : ℚ) + acc) 0

/-- Decrement the stock of the first (size, design)-matching variant: the JS
routes mutate the variant returned by `variants.find` and save the product. -/
def decFirstVariant : List Variant → String → String → Int → List Variant
  | [], _, _, _ => []
  | v :: vs, size, design, q =>
    if v.size == size && v.design == design then
      { v with stock := v.stock - q } :: vs
    else
      v :: decFirstVariant vs size design q

/-- The mutated product after `variant.stock -= item.quantity`: the first
variant matching the item's (size, design) is decremented. -/
def decProduct (product : Product) (it : OrderItem) : Product :=
  { product with
    variants := decFirstVariant product.variants it.variant.size
      it.variant.design (it.quantity : Int) }

/-- One iteration of the `POST /cart/verify-payment` stock loop: decrement
unconditionally whenever the product and variant are found. -/
def verifyStep (ps : List Product) (it : OrderItem) : List Product :=
  match findProduct ps it.product with
  | none => ps
  | some product =>
    match findVariant product.variants it.variant.size it.variant.design with
    | none => ps
    | some _ => saveProduct ps (decProduct product it)

/-- The stock loop of `POST /cart/verify-payment`. -/
def verifyStockLoop (ps : List Product) (items : List OrderItem) : List Product :=
  items.foldl verifyStep ps

/-- One iteration of the webhook's `handlePaymentCaptured` stock loop:
decrement only when the variant's current stock covers the quantity. -/
def captureStep (ps : List Product) (it : OrderItem) : List Product :=
  match findProduct ps it.product with
  | none => ps
  | some product =>
    match findVariant product.variants it.variant.size it.variant.design with
    | none => ps
    | some variant =>
      if (it.quantity : Int) ≤ variant.stock then
        saveProduct ps (decProduct product it)
      else ps

/-- The stock loop of the webhook's `handlePaymentCaptured`. -/
def captureStockLoop (ps : List Product) (items : List OrderItem) : List Product :=
  items.foldl captureStep ps

/-- The request body of `POST /cart/verify-payment`. -/
structure VerifyReq where
  razorpay_payment_id : String
  razorpay_order_id : String
  razorpay_signature : String
  orderId : String
deriving DecidableEq, Repr

structure HttpResp where
  status : Nat
  message : String
deriving DecidableEq, Repr

/-- The order update performed by `POST /cart/verify-payment` on success:
`paymentInfo.status = 'completed'`, payment id recorded, `status = 'confirmed'`. -/
def completedOrder (order : Order) (paymentId : String) : Order :=
  { order with
    status := "confirmed",
    paymentInfo := { order.paymentInfo with
      status := "completed",
      razorpayPaymentId := some paymentId } }

/-- `POST /cart/verify-payment`: field validation, HMAC check over
`order_id|payment_id` under the gateway key secret, order ownership check,
then the confirmation update and the unconditional stock loop. -/
def verifyPayment (hmac : String → String → String) (keySecret : String)
    (isMongoId : String → Bool) (db : DB) (userId : String) (req : VerifyReq) :
    HttpResp × DB :=
  if req.razorpay_payment_id == "" || req.razorpay_order_id == "" ||
      req.razorpay_signature == "" || !(isMongoId req.orderId) then
    ({ status := 400, message := "Validation failed" }, db)
  else
    let body := req.razorpay_order_id ++ "|" ++ req.razorpay_payment_id
    let expectedSignature := hmac keySecret body
    if expectedSignature ≠ req.razorpay_signature then
      ({ status := 400, message := "Payment verification failed" }, db)
    else
      match findOrder db.orders req.orderId with
      | none => ({ status := 404, message := "Order not found" }, db)
      | some order =>
        if order.user ≠ userId then
          ({ status := 403, message := "Unauthorized" }, db)
        else
          ({ status := 200, message := "Payment verified successfully" },
           { orders := saveOrder db.orders (completedOrder order req.razorpay_payment_id),
             products := verifyStockLoop db.products
               (completedOrder order req.razorpay_payment_id).items })

/-- The payment entity carried by a Razorpay webhook event. -/
structure PaymentEntity where
  id : String
  notesOrderId : Option String
deriving DecidableEq, Repr

/-- The order update performed by the webhook's `handlePaymentCaptured`:
`paymentInfo.status = 'paid'`, payment id and paid-at recorded,
`status = 'confirmed'`. -/
def capturedOrder (order : Order) (payment : PaymentEntity) (now : Nat) : Order :=
  { order with
    status := "confirmed",
    paymentInfo := { order.paymentInfo with
      status := "paid",
      razorpayPaymentId := some payment.id,
      paidAt := some now } }

/-- The webhook's `handlePaymentCaptured`: mark the order paid and confirmed,
save it, then run the guarded stock loop over its items. -/
def handlePaymentCaptured (db : DB) (payment : PaymentEntity) (now : Nat) : DB :=
  match payment.notesOrderId with
  | none => db
  | some oid =>
    match findOrder db.orders oid with
    | none => db
    | some order =>
      { orders := saveOrder db.orders (capturedOrder order payment now),
        products := captureStockLoop db.products (capturedOrder order payment now).items }

/-- The webhook's `handlePaymentFailed`. -/
def handlePaymentFailed (db : DB) (payment : PaymentEntity) : DB :=
  match payment.notesOrderId with
  | none => db
  | some oid =>
    match findOrder db.orders oid with
    | none => db
    | some order =>
      { db with orders := saveOrder db.orders { order with
          status := "cancelled",
          paymentInfo := { order.paymentInfo with status := "failed" } } }

/-- The webhook's `handleOrderPaid`: looked up by gateway order id. -/
def handleOrderPaid (db : DB) (razorpayOrderId : String) (now : Nat) : DB :=
  match db.orders.find? (fun o => o.paymentInfo.razorpayOrderId == razorpayOrderId) with
  | none => db
  | some order =>
    { db with orders := saveOrder db.orders { order with
        status := "confirmed",
        paymentInfo := { order.paymentInfo with
          status := "paid", paidAt := some now } } }

/-- A parsed webhook event body. -/
inductive RzpEvent where
  | paymentCaptured (p : PaymentEntity)
  | paymentFailed (p : PaymentEntity)
  | orderPaid (razorpayOrderId : String)
  | other (name : String)
deriving DecidableEq, Repr

/-- `POST /webhooks/razorpay`: compare the `X-Razorpay-Signature` header with
the HMAC of the raw body under the webhook secret, then parse and dispatch.
`parse` abstracts `JSON.parse` plus the event switch; a parse failure is the
caught exception path (500). -/
def razorpayWebhook (hmac : String → String → String) (webhookSecret : String)
    (parse : String → Option RzpEvent) (now : Nat) (db : DB)
    (rawBody : String) (signature : String) : HttpResp × DB :=
  let expectedSignature := hmac webhookSecret rawBody
  if signature ≠ expectedSignature then
    ({ status := 400, message := "Webhook signature verification failed" }, db)
  else
    match parse rawBody with
    | none => ({ status := 500, message := "Webhook processing failed" }, db)
    | some ev =>
      match ev with
      | .paymentCaptured p =>
        ({ status := 200, message := "ok" }, handlePaymentCaptured db p now)
      | .paymentFailed p =>
        ({ status := 200, message := "ok" }, handlePaymentFailed db p)
      | .orderPaid rid =>
        ({ status := 200, message := "ok" }, handleOrderPaid db rid now)
      | .other _ => ({ status := 200, message := "ok" }, db)

/-- The stock of the first (size, design)-matching variant of a product id. -/
def variantStock (ps : List Product) (pid size design : String) : Option Int :=
  match findProduct ps pid with
  | none => none
  | some p => (findVariant p.variants size design).map (fun v => v.stock)

/-- The (product id, size, design) key an order line refers to. -/
def itemKey (it : OrderItem) : String × String × String :=
  (it.product, it.variant.size, it.variant.design)

/-- Every variant of every product holds non-negative stock. -/
def productsNonneg (ps : List Product) : Prop :=
  ∀ p ∈ ps, ∀ v ∈ p.variants, 0 ≤ v.stock

/-- A sequence of `payment.captured` webhook deliveries. -/
def runCaptures (db : DB) (events : List (PaymentEntity × Nat)) : DB :=
  events.foldl (fun d e => handlePaymentCaptured d e.1 e.2) db

/-- JS `Number.prototype.toString()` for naturals: most-significant-first
decimal digit characters (the standard division-remainder algorithm). -/
def natDigs (n : Nat) : List Char :=
  if h : n < 10 then [Char.ofNat (48 + n)]
  else natDigs (n / 10) ++ [Char.ofNat (48 + n % 10)]
termination_by n
decreasing_by exact Nat.div_lt_self (by omega) (by omega)

/-- JS `n.toString()` as a string. -/
def natToStr (n : Nat) : String :=
  ⟨natDigs n⟩

/-- JS `String.prototype.padStart(n, '0')`. -/
def padZeros (n : Nat) (s : String) : String :=
  ⟨List.replicate (n - s.data.length) '0' ++ s.data⟩

/-- JS `s.slice(-n)`: the last `n` characters (the whole string if shorter). -/
def lastChars (n : Nat) (s : String) : String :=
  ⟨s.data.drop (s.data.length - n)⟩

/-- JS `parseInt` restricted to the shapes taken here: the value of the
leading digit run, or `none` (NaN) when the string does not start with one. -/
def parseIntJs (s : String) : Option Nat :=
  let ds := s.data.takeWhile Char.isDigit
  if ds.isEmpty then none
  else some (ds.foldl (fun a c => a * 10 + (c.toNat - 48)) 0)

/-- The numeric value of a string of decimal digits. -/
def digitsVal (s : String) : Nat :=
  s.data.foldl (fun a c => a * 10 + (c.toNat - 48)) 0

/-- `Order.findOne({createdAt: {$gte: today, $lt: tomorrow}}).sort({createdAt: -1})`:
the latest order created since local midnight (86,400,000 ms per day). -/
def lastOrderToday (orders : List Order) (midnight : Nat) : Option Order :=
  (orders.filter (fun o => midnight ≤ o.createdAt && o.createdAt < midnight + 86400000)).foldl
    (fun acc o =>
      match acc with
      | none => some o
      | some b => if b.createdAt < o.createdAt then some o else acc) none

/-- The `orderSchema.pre('save')` hook body for a new order without a number:
`ORD` + 2-digit year + 2-digit month + 2-digit day + padded daily sequence. -/
def genOrderNumber (year month day : Nat) (midnight : Nat) (orders : List Order) : String :=
  let y := lastChars 2 (natToStr year)
  let m := padZeros 2 (natToStr month)
  let d := padZeros 2 (natToStr day)
  let seqStr :=
    match lastOrderToday orders midnight with
    | none => padZeros 3 (natToStr 1)
    | some o =>
      match o.orderNumber with
      | none => padZeros 3 (natToStr 1)
      | some num =>
        match parseIntJs (lastChars 3 num) with
        | none => "NaN"
        | some k => padZeros 3 (natToStr (k + 1))
  "ORD" ++ y ++ m ++ d ++ seqStr

/-- Whether an Except value is a success (a 2xx JSON body rather than a 400). -/
def exceptOk {ε α : Type} : Except ε α → Bool
  | .ok _ => true
  | .error _ => false

/-- Two submitted cart lines that agree on everything the route reads,
differing at most in the client-attached price. -/
def sameIgnoringPrice (i j : CartItemReq) : Prop :=
  i.productId = j.productId ∧ i.size = j.size ∧ i.design = j.design ∧
    i.quantity = j.quantity

/-! ### Concrete sample documents used to instantiate the theorems -/

def sampleVariant : Variant :=
  { size := "M", design := "classic", stock := 5 }

def sampleProduct : Product :=
  { id := "p1", title := "Nails", price := 40,
    images := [{ url := "img", isPrimary := true }],
    variants := [sampleVariant], active := true }

def sampleItem : OrderItem :=
  { product := "p1", title := "Nails", price := 40, quantity := 2,
    variant := { size := "M", design := "classic" }, image := some "img" }

def samplePaymentInfo : PaymentInfo :=
  { status := "pending", amount := 86, razorpayOrderId := "rzpO",
    razorpayPaymentId := none, paidAt := none }

def sampleOrder : Order :=
  { id := "o1", user := "alice", orderNumber := some "ORD251011001",
    createdAt := 0, items := [sampleItem], subtotal := 80, tax := 6,
    shipping := 0, discount := 0, total := 86, status := "pending",
    paymentInfo := samplePaymentInfo }

def sampleDB : DB :=
  { orders := [sampleOrder], products := [sampleProduct] }

def samplePayment : PaymentEntity :=
  { id := "pay1", notesOrderId := some "o1" }

def sampleVerifyReq : VerifyReq :=
  { razorpay_payment_id := "pay1", razorpay_order_id := "rzpO",
    razorpay_signature := "ks:rzpO|pay1", orderId := "o1" }

/-- A stand-in deterministic digest function for witnesses. -/
def sampleHmac (key msg : String) : String :=
  key ++ ":" ++ msg

def sampleReqGood : CartItemReq :=
  { productId := "p1", price := 0, size := "M", design := "classic", quantity := 1 }

def sampleReqGoodPricey : CartItemReq :=
  { productId := "p1", price := 1, size := "M", design := "classic", quantity := 1 }

def sampleReqBad : CartItemReq :=
  { productId := "p1", price := 0, size := "M", design := "classic", quantity := 9 }

def sampleRespItem : OrderItem :=
  { product := "p1", title := "Nails", price := 40, quantity := 1,
    variant := { size := "M", design := "classic" }, image := some "img" }

def sampleResp : ValidateResp :=
  { items := [sampleRespItem], subtotal := 40, tax := 16 / 5,
    shipping := 999 / 100, total := 5319 / 100 }

/-! ### Lemmas about document lookup and save -/

theorem findProduct_some_id {ps : List Product} {pid : String} {p : Product}
    (h : findProduct ps pid = some p) : p.id = pid := by
  have h2 := List.find?_some h
  simpa using h2

theorem mem_of_findProduct {ps : List Product} {pid : String} {p : Product}
    (h : findProduct ps pid = some p) : p ∈ ps :=
  List.mem_of_find?_eq_some h

theorem findProduct_save_ne (ps : List Product) (p : Product) (pid : String)
    (h : pid ≠ p.id) :
    findProduct (saveProduct ps p) pid = findProduct ps pid := by
  induction ps with
  | nil => rfl
  | cons q qs ih =>
    unfold findProduct
    by_cases hq : q.id = p.id
    · have e1 : saveProduct (q :: qs) p = p :: saveProduct qs p := by
        simp [saveProduct, hq]
      rw [e1]
      rw [List.find?_cons_of_neg _ (by simpa using Ne.symm h)]
      rw [List.find?_cons_of_neg _ (by simpa [hq] using Ne.symm h)]
      exact ih
    · have e1 : saveProduct (q :: qs) p = q :: saveProduct qs p := by
        simp [saveProduct, hq]
      rw [e1]
      by_cases hq2 : q.id = pid
      · rw [List.find?_cons_of_pos _ (by simpa using hq2)]
        rw [List.find?_cons_of_pos _ (by simpa using hq2)]
      · rw [List.find?_cons_of_neg _ (by simpa using hq2)]
        rw [List.find?_cons_of_neg _ (by simpa using hq2)]
        exact ih

theorem findProduct_save_self (ps : List Product) (p : Product) :
    findProduct (saveProduct ps p) p.id = (findProduct ps p.id).map (fun _ => p) := by
  induction ps with
  | nil => rfl
  | cons q qs ih =>
    unfold findProduct
    by_cases hq : q.id = p.id
    · have e1 : saveProduct (q :: qs) p = p :: saveProduct qs p := by
        simp [saveProduct, hq]
      rw [e1]
      rw [List.find?_cons_of_pos _ (by simp)]
      rw [List.find?_cons_of_pos _ (by simpa using hq)]
      rfl
    · have e1 : saveProduct (q :: qs) p = q :: saveProduct qs p := by
        simp [saveProduct, hq]
      rw [e1]
      rw [List.find?_cons_of_neg _ (by simpa using hq)]
      rw [List.find?_cons_of_neg _ (by simpa using hq)]
      exact ih

theorem mem_saveProduct {ps : List Product} {p x : Product}
    (h : x ∈ saveProduct ps p) : x ∈ ps ∨ x = p := by
  rcases List.mem_map.1 h with ⟨a, ha, hax⟩
  by_cases hid : a.id = p.id
  · right; rw [← hax]; simp [hid]
  · left; rw [← hax]; simpa [hid] using ha

theorem findOrder_some_id {os : List Order} {oid : String} {o : Order}
    (h : findOrder os oid = some o) : o.id = oid := by
  have h2 := List.find?_some h
  simpa using h2

theorem findOrder_save_self (os : List Order) (o : Order) :
    findOrder (saveOrder os o) o.id = (findOrder os o.id).map (fun _ => o) := by
  induction os with
  | nil => rfl
  | cons q qs ih =>
    unfold findOrder
    by_cases hq : q.id = o.id
    · have e1 : saveOrder (q :: qs) o = o :: saveOrder qs o := by
        simp [saveOrder, hq]
      rw [e1]
      rw [List.find?_cons_of_pos _ (by simp)]
      rw [List.find?_cons_of_pos _ (by simpa using hq)]
      rfl
    · have e1 : saveOrder (q :: qs) o = q :: saveOrder qs o := by
        simp [saveOrder, hq]
      rw [e1]
      rw [List.find?_cons_of_neg _ (by simpa using hq)]
      rw [List.find?_cons_of_neg _ (by simpa using hq)]
      exact ih

/-! ### Lemmas about variant lookup and the first-match decrement -/

theorem findVariant_some {vs : List Variant} {s d : String} {v : Variant}
    (h : findVariant vs s d = some v) : v.size = s ∧ v.design = d := by
  have h2 := List.find?_some h
  simpa using h2

theorem findVariant_decFirst_self (vs : List Variant) (s d : String) (q : Int) :
    findVariant (decFirstVariant vs s d q) s d =
      (findVariant vs s d).map (fun v => { v with stock := v.stock - q }) := by
  induction vs with
  | nil => rfl
  | cons v vs ih =>
    by_cases hc : (v.size == s && v.design == d) = true
    · have e1 : decFirstVariant (v :: vs) s d q = { v with stock := v.stock - q } :: vs := by
        simp only [decFirstVariant, hc, if_true]
      unfold findVariant
      rw [e1]
      rw [List.find?_cons_of_pos _ (by simpa using hc)]
      rw [List.find?_cons_of_pos _ (by simpa using hc)]
      rfl
    · have e1 : decFirstVariant (v :: vs) s d q = v :: decFirstVariant vs s d q := by
        simp only [decFirstVariant, hc, if_false, Bool.false_eq_true]
      unfold findVariant
      rw [e1]
      rw [List.find?_cons_of_neg _ (by simpa using hc)]
      rw [List.find?_cons_of_neg _ (by simpa using hc)]
      exact ih

theorem findVariant_decFirst_ne (vs : List Variant) (s0 d0 s d : String) (q : Int)
    (h : ¬(s = s0 ∧ d = d0)) :
    findVariant (decFirstVariant vs s0 d0 q) s d = findVariant vs s d := by
  induction vs with
  | nil => rfl
  | cons v vs ih =>
    by_cases hc : (v.size == s0 && v.design == d0) = true
    · have e1 : decFirstVariant (v :: vs) s0 d0 q = { v with stock := v.stock - q } :: vs := by
        simp only [decFirstVariant, hc, if_true]
      unfold findVariant
      rw [e1]
      by_cases hm : (v.size == s && v.design == d) = true
      · exfalso
        simp only [Bool.and_eq_true, beq_iff_eq] at hc hm
        exact h ⟨hm.1 ▸ hc.1 ▸ rfl, hm.2 ▸ hc.2 ▸ rfl⟩
      · rw [List.find?_cons_of_neg _ (by simpa using hm)]
        rw [List.find?_cons_of_neg _ (by simpa using hm)]
    · have e1 : decFirstVariant (v :: vs) s0 d0 q = v :: decFirstVariant vs s0 d0 q := by
        simp only [decFirstVariant, hc, if_false, Bool.false_eq_true]
      unfold findVariant
      rw [e1]
      by_cases hm : (v.size == s && v.design == d) = true
      · rw [List.find?_cons_of_pos _ (by simpa using hm)]
        rw [List.find?_cons_of_pos _ (by simpa using hm)]
      · rw [List.find?_cons_of_neg _ (by simpa using hm)]
        rw [List.find?_cons_of_neg _ (by simpa using hm)]
        exact ih

theorem decFirst_nonneg (vs : List Variant) (s d : String) (q : Int)
    (h1 : ∀ v ∈ vs, 0 ≤ v.stock)
    (h2 : ∀ w, findVariant vs s d = some w → q ≤ w.stock) :
    ∀ v ∈ decFirstVariant vs s d q, 0 ≤ v.stock := by
  induction vs with
  | nil => intro w hw; cases hw
  | cons v vs ih =>
    by_cases hc : (v.size == s && v.design == d) = true
    · have e1 : decFirstVariant (v :: vs) s d q = { v with stock := v.stock - q } :: vs := by
        simp only [decFirstVariant, hc, if_true]
      rw [e1]
      intro w hw
      rcases List.mem_cons.1 hw with hw | hw
      · have hv : findVariant (v :: vs) s d = some v := by
          unfold findVariant
          rw [List.find?_cons_of_pos _ (by simpa using hc)]
        have hq := h2 v hv
        have h0 := h1 v (List.mem_cons_self v vs)
        subst hw
        simp only []
        omega
      · exact h1 w (List.mem_cons_of_mem _ hw)
    · have e1 : decFirstVariant (v :: vs) s d q = v :: decFirstVariant vs s d q := by
        simp only [decFirstVariant, hc, if_false, Bool.false_eq_true]
      rw [e1]
      intro w hw
      rcases List.mem_cons.1 hw with hw | hw
      · subst hw
        exact h1 w (List.mem_cons_self w vs)
      · refine ih (fun u hu => h1 u (List.mem_cons_of_mem _ hu)) ?_ w hw
        intro u hu
        apply h2
        unfold findVariant
        rw [List.find?_cons_of_neg _ (by simpa using hc)]
        exact hu

/-! ### variantStock under save and under one stock-loop step -/

theorem variantStock_save_ne (ps : List Product) (p1 : Product) (pid s d : String)
    (h : pid ≠ p1.id) :
    variantStock (saveProduct ps p1) pid s d = variantStock ps pid s d := by
  unfold variantStock
  rw [findProduct_save_ne ps p1 pid h]

theorem variantStock_save_self (ps : List Product) (p0 p1 : Product) (s d : String)
    (h : findProduct ps p1.id = some p0) :
    variantStock (saveProduct ps p1) p1.id s d =
      (findVariant p1.variants s d).map (fun v => v.stock) := by
  unfold variantStock
  rw [findProduct_save_self, h]
  rfl

theorem decProduct_id (product : Product) (it : OrderItem) :
    (decProduct product it).id = product.id := rfl

theorem decProduct_variants (product : Product) (it : OrderItem) :
    (decProduct product it).variants = decFirstVariant product.variants
      it.variant.size it.variant.design (it.quantity : Int) := rfl

theorem variantStock_eq (ps : List Product) (pid s d : String) (product : Product)
    (hfp : findProduct ps pid = some product) :
    variantStock ps pid s d = (findVariant product.variants s d).map (fun v => v.stock) := by
  unfold variantStock
  rw [hfp]

theorem variantStock_some (ps : List Product) (pid s d : String) (stk : Int)
    (h : variantStock ps pid s d = some stk) :
    ∃ product variant, findProduct ps pid = some product ∧
      findVariant product.variants s d = some variant ∧ variant.stock = stk := by
  cases hfp : findProduct ps pid with
  | none =>
    unfold variantStock at h
    rw [hfp] at h
    cases (show (none : Option Int) = some stk from h)
  | some product =>
    rw [variantStock_eq ps pid s d product hfp] at h
    cases hfv : findVariant product.variants s d with
    | none =>
      rw [hfv] at h
      cases (show (none : Option Int) = some stk from h)
    | some variant =>
      rw [hfv] at h
      exact ⟨product, variant, rfl, hfv, by simpa using h⟩

theorem captureStep_variantStock_ne (ps : List Product) (it : OrderItem)
    (pid s d : String)
    (h : ¬(pid = it.product ∧ s = it.variant.size ∧ d = it.variant.design)) :
    variantStock (captureStep ps it) pid s d = variantStock ps pid s d := by
  unfold captureStep
  cases hfp : findProduct ps it.product with
  | none => rfl
  | some product =>
    dsimp only
    cases hfv : findVariant product.variants it.variant.size it.variant.design with
    | none => rfl
    | some variant =>
      dsimp only
      by_cases hq : (it.quantity : Int) ≤ variant.stock
      · rw [if_pos hq]
        have hid : (decProduct product it).id = it.product := by
          rw [decProduct_id]; exact findProduct_some_id hfp
        by_cases hpid : pid = it.product
        · subst hpid
          have hkey : ¬(s = it.variant.size ∧ d = it.variant.design) :=
            fun hk => h ⟨rfl, hk⟩
          have hsave := variantStock_save_self ps product (decProduct product it) s d
            (by rw [hid]; exact hfp)
          rw [hid] at hsave
          rw [hsave, variantStock_eq ps it.product s d product hfp, decProduct_variants]
          rw [findVariant_decFirst_ne _ _ _ _ _ _ hkey]
        · exact variantStock_save_ne ps _ pid s d (by rw [hid]; exact hpid)
      · rw [if_neg hq]

theorem captureStep_effect (ps : List Product) (it : OrderItem) (stk : Int)
    (hs : variantStock ps it.product it.variant.size it.variant.design = some stk)
    (hq : (it.quantity : Int) ≤ stk) :
    variantStock (captureStep ps it) it.product it.variant.size it.variant.design =
      some (stk - (it.quantity : Int)) := by
  obtain ⟨product, variant, hfp, hfv, hstk⟩ := variantStock_some _ _ _ _ _ hs
  unfold captureStep
  rw [hfp]
  dsimp only
  rw [hfv]
  dsimp only
  rw [if_pos (by rw [hstk]; exact hq)]
  have hid : (decProduct product it).id = it.product := by
          rw [decProduct_id]; exact findProduct_some_id hfp
  have hsave := variantStock_save_self ps product (decProduct product it)
    it.variant.size it.variant.design (by rw [hid]; exact hfp)
  rw [hid] at hsave
  rw [hsave, decProduct_variants, findVariant_decFirst_self, hfv]
  simp [hstk]

theorem verifyStep_variantStock_ne (ps : List Product) (it : OrderItem)
    (pid s d : String)
    (h : ¬(pid = it.product ∧ s = it.variant.size ∧ d = it.variant.design)) :
    variantStock (verifyStep ps it) pid s d = variantStock ps pid s d := by
  unfold verifyStep
  cases hfp : findProduct ps it.product with
  | none => rfl
  | some product =>
    dsimp only
    cases hfv : findVariant product.variants it.variant.size it.variant.design with
    | none => rfl
    | some variant =>
      dsimp only
      have hid : (decProduct product it).id = it.product := by
          rw [decProduct_id]; exact findProduct_some_id hfp
      by_cases hpid : pid = it.product
      · subst hpid
        have hkey : ¬(s = it.variant.size ∧ d = it.variant.design) :=
          fun hk => h ⟨rfl, hk⟩
        have hsave := variantStock_save_self ps product (decProduct product it) s d
          (by rw [hid]; exact hfp)
        rw [hid] at hsave
        rw [hsave, variantStock_eq ps it.product s d product hfp, decProduct_variants]
        rw [findVariant_decFirst_ne _ _ _ _ _ _ hkey]
      · exact variantStock_save_ne ps _ pid s d (by rw [hid]; exact hpid)

theorem captureStep_eq_verifyStep (ps : List Product) (it : OrderItem) (stk : Int)
    (hs : variantStock ps it.product it.variant.size it.variant.design = some stk)
    (hq : (it.quantity : Int) ≤ stk) :
    captureStep ps it = verifyStep ps it := by
  obtain ⟨product, variant, hfp, hfv, hstk⟩ := variantStock_some _ _ _ _ _ hs
  unfold captureStep verifyStep
  rw [hfp]
  dsimp only
  rw [hfv]
  dsimp only
  rw [if_pos (by rw [hstk]; exact hq)]

theorem captureStep_nonneg (ps : List Product) (it : OrderItem)
    (h : productsNonneg ps) : productsNonneg (captureStep ps it) := by
  unfold captureStep
  cases hfp : findProduct ps it.product with
  | none => exact h
  | some product =>
    dsimp only
    cases hfv : findVariant product.variants it.variant.size it.variant.design with
    | none => exact h
    | some variant =>
      dsimp only
      by_cases hq : (it.quantity : Int) ≤ variant.stock
      · rw [if_pos hq]
        unfold productsNonneg
        intro x hx
        rcases mem_saveProduct hx with hx | hx
        · exact h x hx
        · subst hx
          intro v hv
          rw [decProduct_variants] at hv
          refine decFirst_nonneg product.variants it.variant.size it.variant.design
            (it.quantity : Int) (h product (mem_of_findProduct hfp)) ?_ v hv
          intro w hw
          rw [hfv] at hw
          cases hw
          exact hq
      · rw [if_neg hq]
        exact h

/-! ### Lemmas about the stock loops -/

theorem captureStockLoop_cons (ps : List Product) (it : OrderItem) (rest : List OrderItem) :
    captureStockLoop ps (it :: rest) = captureStockLoop (captureStep ps it) rest := rfl

theorem verifyStockLoop_cons (ps : List Product) (it : OrderItem) (rest : List OrderItem) :
    verifyStockLoop ps (it :: rest) = verifyStockLoop (verifyStep ps it) rest := rfl

theorem itemKey_eq_iff (a b : OrderItem) :
    itemKey a = itemKey b ↔
      (a.product = b.product ∧ a.variant.size = b.variant.size ∧
        a.variant.design = b.variant.design) := by
  simp [itemKey, Prod.ext_iff]

theorem key_ne_of_nodup_head {it0 : OrderItem} {rest : List OrderItem}
    (hnotin : itemKey it0 ∉ rest.map itemKey) {i : OrderItem} (hi : i ∈ rest) :
    itemKey i ≠ itemKey it0 := by
  intro he
  exact hnotin (he ▸ List.mem_map_of_mem itemKey hi)

theorem captureStockLoop_frame (items : List OrderItem) (pid s d : String) :
    ∀ (ps : List Product),
      (∀ it ∈ items, ¬(pid = it.product ∧ s = it.variant.size ∧ d = it.variant.design)) →
      variantStock (captureStockLoop ps items) pid s d = variantStock ps pid s d := by
  induction items with
  | nil => intro ps _; rfl
  | cons it rest ih =>
    intro ps h
    rw [captureStockLoop_cons]
    rw [ih (captureStep ps it) (fun i hi => h i (List.mem_cons_of_mem _ hi))]
    exact captureStep_variantStock_ne ps it pid s d (h it (List.mem_cons_self _ _))

theorem captureStockLoop_effect (items : List OrderItem)
    (hnd : (items.map itemKey).Nodup) :
    ∀ (ps : List Product),
      (∀ it ∈ items, ∃ stk,
        variantStock ps it.product it.variant.size it.variant.design = some stk ∧
        (it.quantity : Int) ≤ stk) →
      ∀ it ∈ items, ∃ stk,
        variantStock ps it.product it.variant.size it.variant.design = some stk ∧
        variantStock (captureStockLoop ps items) it.product it.variant.size
          it.variant.design = some (stk - (it.quantity : Int)) := by
  induction items with
  | nil => intro ps _ it hit; cases hit
  | cons it0 rest ih =>
    rw [List.map_cons, List.nodup_cons] at hnd
    obtain ⟨hnotin, hndrest⟩ := hnd
    intro ps hs
    obtain ⟨s0, hs0, hq0⟩ := hs it0 (List.mem_cons_self _ _)
    have hframe : ∀ i ∈ rest,
        variantStock (captureStep ps it0) i.product i.variant.size i.variant.design =
          variantStock ps i.product i.variant.size i.variant.design := by
      intro i hi
      apply captureStep_variantStock_ne
      intro hcomp
      exact key_ne_of_nodup_head hnotin hi ((itemKey_eq_iff i it0).2 hcomp)
    intro it hit
    rcases List.mem_cons.1 hit with rfl | hit
    · refine ⟨s0, hs0, ?_⟩
      have hloop : variantStock (captureStockLoop (captureStep ps it) rest)
          it.product it.variant.size it.variant.design =
          variantStock (captureStep ps it) it.product it.variant.size it.variant.design := by
        apply captureStockLoop_frame
        intro i hi hcomp
        exact key_ne_of_nodup_head hnotin hi
          ((itemKey_eq_iff i it).2 ⟨hcomp.1.symm, hcomp.2.1.symm, hcomp.2.2.symm⟩)
      rw [captureStockLoop_cons, hloop]
      exact captureStep_effect ps it s0 hs0 hq0
    · have hs1 : ∀ i ∈ rest, ∃ stk,
          variantStock (captureStep ps it0) i.product i.variant.size i.variant.design =
            some stk ∧ (i.quantity : Int) ≤ stk := by
        intro i hi
        obtain ⟨s1, h1, h2⟩ := hs i (List.mem_cons_of_mem _ hi)
        exact ⟨s1, (hframe i hi).trans h1, h2⟩
      obtain ⟨s1, h1, h2⟩ := ih hndrest (captureStep ps it0) hs1 it hit
      refine ⟨s1, ?_, ?_⟩
      · rw [← hframe it hit]
        exact h1
      · rw [captureStockLoop_cons]
        exact h2

theorem captureStockLoop_eq_verifyStockLoop (items : List OrderItem)
    (hnd : (items.map itemKey).Nodup) :
    ∀ (ps : List Product),
      (∀ it ∈ items, ∃ stk,
        variantStock ps it.product it.variant.size it.variant.design = some stk ∧
        (it.quantity : Int) ≤ stk) →
      captureStockLoop ps items = verifyStockLoop ps items := by
  induction items with
  | nil => intro ps _; rfl
  | cons it0 rest ih =>
    rw [List.map_cons, List.nodup_cons] at hnd
    obtain ⟨hnotin, hndrest⟩ := hnd
    intro ps hs
    obtain ⟨s0, hs0, hq0⟩ := hs it0 (List.mem_cons_self _ _)
    have hframe : ∀ i ∈ rest,
        variantStock (captureStep ps it0) i.product i.variant.size i.variant.design =
          variantStock ps i.product i.variant.size i.variant.design := by
      intro i hi
      apply captureStep_variantStock_ne
      intro hcomp
      exact key_ne_of_nodup_head hnotin hi ((itemKey_eq_iff i it0).2 hcomp)
    have hs1 : ∀ i ∈ rest, ∃ stk,
        variantStock (captureStep ps it0) i.product i.variant.size i.variant.design =
          some stk ∧ (i.quantity : Int) ≤ stk := by
      intro i hi
      obtain ⟨s1, h1, h2⟩ := hs i (List.mem_cons_of_mem _ hi)
      exact ⟨s1, (hframe i hi).trans h1, h2⟩
    rw [captureStockLoop_cons, verifyStockLoop_cons,
      ← captureStep_eq_verifyStep ps it0 s0 hs0 hq0]
    exact ih hndrest (captureStep ps it0) hs1

theorem captureStockLoop_nonneg (items : List OrderItem) :
    ∀ (ps : List Product), productsNonneg ps →
      productsNonneg (captureStockLoop ps items) := by
  induction items with
  | nil => intro ps h; exact h
  | cons it rest ih =>
    intro ps h
    rw [captureStockLoop_cons]
    exact ih (captureStep ps it) (captureStep_nonneg ps it h)

/-! ### Lemmas about the payment-captured handler -/

theorem capturedOrder_items (order : Order) (payment : PaymentEntity) (now : Nat) :
    (capturedOrder order payment now).items = order.items := rfl

theorem capturedOrder_id (order : Order) (payment : PaymentEntity) (now : Nat) :
    (capturedOrder order payment now).id = order.id := rfl

theorem completedOrder_items (order : Order) (paymentId : String) :
    (completedOrder order paymentId).items = order.items := rfl

theorem completedOrder_id (order : Order) (paymentId : String) :
    (completedOrder order paymentId).id = order.id := rfl

theorem handlePaymentCaptured_eq (db : DB) (payment : PaymentEntity) (now : Nat)
    (oid : String) (order : Order)
    (hnotes : payment.notesOrderId = some oid)
    (horder : findOrder db.orders oid = some order) :
    handlePaymentCaptured db payment now =
      { orders := saveOrder db.orders (capturedOrder order payment now),
        products := captureStockLoop db.products order.items } := by
  unfold handlePaymentCaptured
  rw [hnotes]
  dsimp only
  rw [horder]
  rfl

theorem handlePaymentCaptured_findOrder (db : DB) (payment : PaymentEntity) (now : Nat)
    (oid : String) (order : Order)
    (hnotes : payment.notesOrderId = some oid)
    (horder : findOrder db.orders oid = some order) :
    findOrder (handlePaymentCaptured db payment now).orders oid =
      some (capturedOrder order payment now) := by
  rw [handlePaymentCaptured_eq db payment now oid order hnotes horder]
  have hid : (capturedOrder order payment now).id = oid := by
    rw [capturedOrder_id]
    exact findOrder_some_id horder
  show findOrder (saveOrder db.orders (capturedOrder order payment now)) oid = _
  rw [← hid, findOrder_save_self, hid, horder]
  rfl

theorem handlePaymentCaptured_nonneg (db : DB) (payment : PaymentEntity) (now : Nat)
    (h : productsNonneg db.products) :
    productsNonneg (handlePaymentCaptured db payment now).products := by
  unfold handlePaymentCaptured
  cases hn : payment.notesOrderId with
  | none => exact h
  | some oid =>
    dsimp only
    cases ho : findOrder db.orders oid with
    | none => exact h
    | some order =>
      dsimp only
      exact captureStockLoop_nonneg _ db.products h

theorem runCaptures_nonneg (events : List (PaymentEntity × Nat)) :
    ∀ (db : DB), productsNonneg db.products →
      productsNonneg (runCaptures db events).products := by
  induction events with
  | nil => intro db h; exact h
  | cons e rest ih =>
    intro db h
    have e1 : runCaptures db (e :: rest) =
        runCaptures (handlePaymentCaptured db e.1 e.2) rest := rfl
    rw [e1]
    exact ih _ (handlePaymentCaptured_nonneg db e.1 e.2 h)

/-! ### Claim theorems: signature checks and authorization -/

/-- C2: whenever the supplied `razorpay_signature` differs from the hex
HMAC-SHA256 of `"{razorpay_order_id}|{razorpay_payment_id}"` under the gateway
key secret, `POST /cart/verify-payment` responds 400 and leaves the whole
document store (orders and product stock) unchanged; hence only a matching
signature can reach the confirmation path. -/
theorem verify_payment_rejects_forged_signature
    (hmac : String → String → String) (keySecret : String) (isMongoId : String → Bool)
    (db : DB) (userId : String) (req : VerifyReq)
    (h : hmac keySecret (req.razorpay_order_id ++ "|" ++ req.razorpay_payment_id) ≠
      req.razorpay_signature) :
    (verifyPayment hmac keySecret isMongoId db userId req).1.status = 400 ∧
    (verifyPayment hmac keySecret isMongoId db userId req).2 = db := by
  unfold verifyPayment
  by_cases hv : (req.razorpay_payment_id == "" || req.razorpay_order_id == "" ||
      req.razorpay_signature == "" || !(isMongoId req.orderId)) = true
  · rw [if_pos hv]
    exact ⟨rfl, rfl⟩
  · rw [if_neg hv]
    dsimp only
    rw [if_pos h]
    exact ⟨rfl, rfl⟩

theorem verify_payment_rejects_forged_signature_witness :
    (verifyPayment sampleHmac "ks" (fun _ => true) sampleDB "alice"
      { razorpay_payment_id := "pay1", razorpay_order_id := "rzpO",
        razorpay_signature := "forged", orderId := "o1" }).1.status = 400 ∧
    (verifyPayment sampleHmac "ks" (fun _ => true) sampleDB "alice"
      { razorpay_payment_id := "pay1", razorpay_order_id := "rzpO",
        razorpay_signature := "forged", orderId := "o1" }).2 = sampleDB :=
  verify_payment_rejects_forged_signature _ _ _ _ _ _ (by decide)

/-- C3: whenever the `X-Razorpay-Signature` header differs from the hex
HMAC-SHA256 of the raw request body under the webhook secret,
`POST /webhooks/razorpay` answers 400 with the store untouched, uniformly in
the body parser — so no event is parsed or dispatched. -/
theorem webhook_rejects_forged_signature
    (hmac : String → String → String) (webhookSecret : String)
    (parse : String → Option RzpEvent) (now : Nat) (db : DB)
    (rawBody signature : String)
    (h : signature ≠ hmac webhookSecret rawBody) :
    razorpayWebhook hmac webhookSecret parse now db rawBody signature =
      ({ status := 400, message := "Webhook signature verification failed" }, db) := by
  unfold razorpayWebhook
  dsimp only
  rw [if_pos h]

theorem webhook_rejects_forged_signature_witness :
    razorpayWebhook sampleHmac "whs" (fun _ => none) 0 sampleDB "rawbody" "forged" =
      ({ status := 400, message := "Webhook signature verification failed" },
        sampleDB) :=
  webhook_rejects_forged_signature _ _ _ _ _ _ _ (by decide)

/-- C9: with a valid signature but an order owned by a different user,
`POST /cart/verify-payment` responds 403 and changes nothing. -/
theorem verify_payment_owner_only
    (hmac : String → String → String) (keySecret : String) (isMongoId : String → Bool)
    (db : DB) (userId : String) (req : VerifyReq) (order : Order)
    (h1 : req.razorpay_payment_id ≠ "") (h2 : req.razorpay_order_id ≠ "")
    (h3 : req.razorpay_signature ≠ "") (h4 : isMongoId req.orderId = true)
    (hsig : hmac keySecret (req.razorpay_order_id ++ "|" ++ req.razorpay_payment_id) =
      req.razorpay_signature)
    (horder : findOrder db.orders req.orderId = some order)
    (howner : order.user ≠ userId) :
    (verifyPayment hmac keySecret isMongoId db userId req).1.status = 403 ∧
    (verifyPayment hmac keySecret isMongoId db userId req).2 = db := by
  unfold verifyPayment
  rw [if_neg (by simp [h1, h2, h3, h4])]
  dsimp only
  rw [if_neg (not_not_intro hsig)]
  rw [horder]
  dsimp only
  rw [if_pos howner]
  exact ⟨rfl, rfl⟩

theorem verify_payment_owner_only_witness :
    (verifyPayment sampleHmac "ks" (fun _ => true) sampleDB "bob"
      sampleVerifyReq).1.status = 403 ∧
    (verifyPayment sampleHmac "ks" (fun _ => true) sampleDB "bob"
      sampleVerifyReq).2 = sampleDB :=
  verify_payment_owner_only _ _ _ _ _ _ sampleOrder (by decide) (by decide)
    (by decide) (by decide) (by decide) (by decide) (by decide)

/-- C10: the webhook capture path decrements a variant only when its current
stock covers the ordered quantity (a short variant is left entirely
unchanged), so every variant's stock stays non-negative across any sequence
of `payment.captured` webhook deliveries. -/
theorem capture_stock_stays_nonneg (db : DB) (events : List (PaymentEntity × Nat))
    (h : productsNonneg db.products) :
    productsNonneg (runCaptures db events).products ∧
    (∀ (ps : List Product) (it : OrderItem) (stk : Int),
      variantStock ps it.product it.variant.size it.variant.design = some stk →
      stk < (it.quantity : Int) → captureStep ps it = ps) := by
  refine ⟨runCaptures_nonneg events db h, ?_⟩
  intro ps it stk hs hlt
  obtain ⟨product, variant, hfp, hfv, hstk⟩ := variantStock_some _ _ _ _ _ hs
  unfold captureStep
  rw [hfp]
  dsimp only
  rw [hfv]
  dsimp only
  rw [if_neg (by rw [hstk]; omega)]

theorem capture_stock_stays_nonneg_witness :
    productsNonneg (runCaptures sampleDB [(samplePayment, 3)]).products :=
  (capture_stock_stays_nonneg sampleDB [(samplePayment, 3)]
    (by unfold productsNonneg; decide)).1

/-! ### Claim theorems: duplicate capture and dual-path comparison -/

/-- C4: delivering the same `payment.captured` event twice, with every
referenced variant distinct and holding stock at least the ordered quantity
at each processing (initial stock at least twice the quantity), leaves each
ordered variant's stock decremented by twice the ordered quantity: the
handler performs no already-processed check. -/
theorem duplicate_capture_double_decrements (db : DB) (payment : PaymentEntity)
    (now1 now2 : Nat) (oid : String) (order : Order)
    (hnotes : payment.notesOrderId = some oid)
    (horder : findOrder db.orders oid = some order)
    (hkeys : (order.items.map itemKey).Nodup)
    (hstock : ∀ it ∈ order.items, ∃ stk,
      variantStock db.products it.product it.variant.size it.variant.design = some stk ∧
      2 * (it.quantity : Int) ≤ stk) :
    ∀ it ∈ order.items, ∃ stk,
      variantStock db.products it.product it.variant.size it.variant.design = some stk ∧
      variantStock (handlePaymentCaptured (handlePaymentCaptured db payment now1)
          payment now2).products it.product it.variant.size it.variant.design =
        some (stk - 2 * (it.quantity : Int)) := by
  have hs1 : ∀ it ∈ order.items, ∃ stk,
      variantStock db.products it.product it.variant.size it.variant.design = some stk ∧
      (it.quantity : Int) ≤ stk := by
    intro it hit
    obtain ⟨stk, ha, hb⟩ := hstock it hit
    exact ⟨stk, ha, by omega⟩
  have heff1 := captureStockLoop_effect order.items hkeys db.products hs1
  have h1eq := handlePaymentCaptured_eq db payment now1 oid order hnotes horder
  have hord1 := handlePaymentCaptured_findOrder db payment now1 oid order hnotes horder
  have hprod1 : (handlePaymentCaptured db payment now1).products =
      captureStockLoop db.products order.items := by rw [h1eq]
  have h2eq := handlePaymentCaptured_eq (handlePaymentCaptured db payment now1)
    payment now2 oid (capturedOrder order payment now1) hnotes hord1
  have hprod2 : (handlePaymentCaptured (handlePaymentCaptured db payment now1)
      payment now2).products =
      captureStockLoop (captureStockLoop db.products order.items) order.items := by
    rw [h2eq]
    show captureStockLoop (handlePaymentCaptured db payment now1).products
      (capturedOrder order payment now1).items = _
    rw [capturedOrder_items, hprod1]
  have hs2 : ∀ it ∈ order.items, ∃ stk,
      variantStock (captureStockLoop db.products order.items) it.product
        it.variant.size it.variant.design = some stk ∧
      (it.quantity : Int) ≤ stk := by
    intro it hit
    obtain ⟨stk, hbase, h2q⟩ := hstock it hit
    obtain ⟨stk1, hbase1, hafter⟩ := heff1 it hit
    have hss : stk1 = stk := by
      rw [hbase] at hbase1
      exact (Option.some.inj hbase1).symm
    rw [hss] at hafter
    exact ⟨stk - (it.quantity : Int), hafter, by omega⟩
  have heff2 := captureStockLoop_effect order.items hkeys
    (captureStockLoop db.products order.items) hs2
  intro it hit
  obtain ⟨stk, hbase, h2q⟩ := hstock it hit
  obtain ⟨stk1, hbase1, hafter1⟩ := heff1 it hit
  have hss1 : stk1 = stk := by
    rw [hbase] at hbase1
    exact (Option.some.inj hbase1).symm
  obtain ⟨stk2, hbase2, hafter2⟩ := heff2 it hit
  rw [hss1] at hafter1
  have hss2 : stk2 = stk - (it.quantity : Int) := by
    rw [hafter1] at hbase2
    exact (Option.some.inj hbase2).symm
  refine ⟨stk, hbase, ?_⟩
  rw [hprod2, hafter2, hss2]
  congr 1
  omega

theorem duplicate_capture_double_decrements_witness :
    variantStock (handlePaymentCaptured (handlePaymentCaptured sampleDB
        samplePayment 1) samplePayment 2).products "p1" "M" "classic" =
      some 1 := by
  have h := duplicate_capture_double_decrements sampleDB samplePayment 1 2 "o1"
    sampleOrder (by decide) (by decide) (by decide)
    (by
      intro it hit
      have hone : it = sampleItem := by
        have : it ∈ [sampleItem] := hit
        simpa using this
      subst hone
      exact ⟨5, by decide, by decide⟩)
  obtain ⟨stk, hbase, hfinal⟩ := h sampleItem (by decide)
  have hstk : stk = 5 := by
    have hev : variantStock sampleDB.products sampleItem.product
        sampleItem.variant.size sampleItem.variant.design = some 5 := by decide
    rw [hev] at hbase
    exact (Option.some.inj hbase).symm
  rw [hstk] at hfinal
  exact hfinal

/-- C5 counterexample: starting from the same concrete store, the webhook
capture path and the client-redirect verification path leave the same order
with different `paymentInfo` contents (`'paid'` versus `'completed'`), so the
two paths do not produce identical paymentInfo fields. -/
theorem capture_verify_not_identical_counterexample :
    ((findOrder (handlePaymentCaptured sampleDB samplePayment 7).orders
        "o1").map (fun o => o.paymentInfo.status)) ≠
    ((findOrder ((verifyPayment sampleHmac "ks" (fun _ => true) sampleDB "alice"
        sampleVerifyReq).2).orders "o1").map (fun o => o.paymentInfo.status)) := by
  decide

/-- C5 (amended): under sufficient stock and distinct item variants, the
webhook capture path and the verification path make identical stock updates
(the final product lists coincide) and both set the order's status to
`'confirmed'`; but the two paths write different paymentInfo statuses — the
webhook writes `'paid'` (with `paidAt`), the verification path `'completed'`
— and with insufficient stock the webhook path skips the decrement that the
verification path still applies. -/
theorem capture_verify_agree_amended
    (hmac : String → String → String) (keySecret : String) (isMongoId : String → Bool)
    (db : DB) (userId : String) (req : VerifyReq) (payment : PaymentEntity)
    (now : Nat) (order : Order)
    (hnotes : payment.notesOrderId = some req.orderId)
    (horder : findOrder db.orders req.orderId = some order)
    (h1 : req.razorpay_payment_id ≠ "") (h2 : req.razorpay_order_id ≠ "")
    (h3 : req.razorpay_signature ≠ "") (h4 : isMongoId req.orderId = true)
    (hsig : hmac keySecret (req.razorpay_order_id ++ "|" ++ req.razorpay_payment_id) =
      req.razorpay_signature)
    (howner : order.user = userId)
    (hkeys : (order.items.map itemKey).Nodup)
    (hstock : ∀ it ∈ order.items, ∃ stk,
      variantStock db.products it.product it.variant.size it.variant.design = some stk ∧
      (it.quantity : Int) ≤ stk) :
    (handlePaymentCaptured db payment now).products =
      ((verifyPayment hmac keySecret isMongoId db userId req).2).products ∧
    (findOrder (handlePaymentCaptured db payment now).orders req.orderId).map
      Order.status = some "confirmed" ∧
    (findOrder ((verifyPayment hmac keySecret isMongoId db userId req).2).orders
      req.orderId).map Order.status = some "confirmed" ∧
    (findOrder (handlePaymentCaptured db payment now).orders req.orderId).map
      (fun o => o.paymentInfo.status) = some "paid" ∧
    (findOrder ((verifyPayment hmac keySecret isMongoId db userId req).2).orders
      req.orderId).map (fun o => o.paymentInfo.status) = some "completed" := by
  have hweq := handlePaymentCaptured_eq db payment now req.orderId order hnotes horder
  have hword := handlePaymentCaptured_findOrder db payment now req.orderId order
    hnotes horder
  have hveq : verifyPayment hmac keySecret isMongoId db userId req =
      ({ status := 200, message := "Payment verified successfully" },
       { orders := saveOrder db.orders (completedOrder order req.razorpay_payment_id),
         products := verifyStockLoop db.products order.items }) := by
    unfold verifyPayment
    rw [if_neg (by simp [h1, h2, h3, h4])]
    dsimp only
    rw [if_neg (not_not_intro hsig)]
    rw [horder]
    dsimp only
    rw [if_neg (not_not_intro howner)]
    rfl
  have hvord : findOrder (saveOrder db.orders
      (completedOrder order req.razorpay_payment_id)) req.orderId =
      some (completedOrder order req.razorpay_payment_id) := by
    have hid : (completedOrder order req.razorpay_payment_id).id = req.orderId := by
      rw [completedOrder_id]
      exact findOrder_some_id horder
    rw [← hid, findOrder_save_self, hid, horder]
    rfl
  refine ⟨?_, ?_, ?_, ?_, ?_⟩
  · rw [hweq, hveq]
    exact captureStockLoop_eq_verifyStockLoop order.items hkeys db.products hstock
  · rw [hword]
    rfl
  · rw [hveq]
    show (findOrder (saveOrder db.orders
      (completedOrder order req.razorpay_payment_id)) req.orderId).map
      Order.status = some "confirmed"
    rw [hvord]
    rfl
  · rw [hword]
    rfl
  · rw [hveq]
    show (findOrder (saveOrder db.orders
      (completedOrder order req.razorpay_payment_id)) req.orderId).map
      (fun o => o.paymentInfo.status) = some "completed"
    rw [hvord]
    rfl

theorem capture_verify_agree_amended_witness :
    (handlePaymentCaptured sampleDB samplePayment 7).products =
      ((verifyPayment sampleHmac "ks" (fun _ => true) sampleDB "alice"
        sampleVerifyReq).2).products ∧
    (findOrder (handlePaymentCaptured sampleDB samplePayment 7).orders
      "o1").map Order.status = some "confirmed" ∧
    (findOrder ((verifyPayment sampleHmac "ks" (fun _ => true) sampleDB "alice"
      sampleVerifyReq).2).orders "o1").map Order.status = some "confirmed" ∧
    (findOrder (handlePaymentCaptured sampleDB samplePayment 7).orders
      "o1").map (fun o => o.paymentInfo.status) = some "paid" ∧
    (findOrder ((verifyPayment sampleHmac "ks" (fun _ => true) sampleDB "alice"
      sampleVerifyReq).2).orders "o1").map (fun o => o.paymentInfo.status) =
      some "completed" :=
  capture_verify_agree_amended sampleHmac "ks" (fun _ => true) sampleDB "alice"
    sampleVerifyReq samplePayment 7 sampleOrder (by decide) (by decide)
    (by decide) (by decide) (by decide) (by decide) (by decide) (by decide)
    (by decide)
    (by
      intro it hit
      have hone : it = sampleItem := by
        have : it ∈ [sampleItem] := hit
        simpa using this
      subst hone
      exact ⟨5, by decide, by decide⟩)

/-! ### Lemmas about cart validation -/

theorem validateItems_ok_subtotal (ps : List Product) :
    ∀ (items : List CartItemReq) (vs : List OrderItem) (sub : ℚ),
      validateItems ps items = .ok (vs, sub) → sub = itemsSubtotal vs := by
  intro items
  induction items with
  | nil =>
    intro vs sub h
    simp only [validateItems, Except.ok.injEq, Prod.mk.injEq] at h
    obtain ⟨hvs, hsub⟩ := h
    subst hvs
    subst hsub
    rfl
  | cons i rest ih =>
    intro vs sub h
    unfold validateItems at h
    split at h
    · cases h
    · split at h
      · cases h
      · split at h
        · cases h
        · split at h
          · cases h
          · split at h
            · cases h
            next vs2 sub2 hrec =>
              simp only [Except.ok.injEq, Prod.mk.injEq] at h
              obtain ⟨hvs, hsub⟩ := h
              subst hvs
              subst hsub
              have hih := ih vs2 sub2 hrec
              simp [itemsSubtotal] at hih ⊢
              rw [hih]

theorem validateItems_error_of_fails (ps : List Product) :
    ∀ (items : List CartItemReq), (∃ i ∈ items, itemFails ps i = true) →
      ∃ e, validateItems ps items = .error e := by
  intro items
  induction items with
  | nil =>
    rintro ⟨i, hi, _⟩
    cases hi
  | cons i0 rest ih =>
    rintro ⟨i, hi, hfail⟩
    unfold validateItems
    cases hfp : findProduct ps i0.productId with
    | none => exact ⟨_, rfl⟩
    | some product =>
      dsimp only
      by_cases hact : (!product.active) = true
      · rw [if_pos hact]
        exact ⟨_, rfl⟩
      · rw [if_neg hact]
        cases hfv : findVariant product.variants i0.size i0.design with
        | none => exact ⟨_, rfl⟩
        | some variant =>
          dsimp only
          by_cases hstk : variant.stock < (i0.quantity : Int)
          · rw [if_pos hstk]
            exact ⟨_, rfl⟩
          · rw [if_neg hstk]
            have hi0 : itemFails ps i0 = false := by
              unfold itemFails
              rw [hfp]
              dsimp only
              rw [if_neg hact, hfv]
              dsimp only
              simp [hstk]
            have hirest : ∃ j ∈ rest, itemFails ps j = true := by
              rcases List.mem_cons.1 hi with hh | hmem
              · rw [hh] at hfail
                rw [hi0] at hfail
                cases hfail
              · exact ⟨i, hmem, hfail⟩
            obtain ⟨e, he⟩ := ih hirest
            rw [he]
            exact ⟨e, rfl⟩

theorem validateItems_ok_of_no_fails (ps : List Product) :
    ∀ (items : List CartItemReq), (∀ i ∈ items, itemFails ps i = false) →
      ∃ v, validateItems ps items = .ok v := by
  intro items
  induction items with
  | nil =>
    intro _
    exact ⟨([], 0), rfl⟩
  | cons i0 rest ih =>
    intro h
    have h0 := h i0 (List.mem_cons_self _ _)
    unfold itemFails at h0
    cases hfp : findProduct ps i0.productId with
    | none =>
      rw [hfp] at h0
      dsimp only at h0
      exact absurd h0 (by decide)
    | some product =>
      rw [hfp] at h0
      dsimp only at h0
      by_cases hact : (!product.active) = true
      · rw [if_pos hact] at h0
        exact absurd h0 (by decide)
      · rw [if_neg hact] at h0
        cases hfv : findVariant product.variants i0.size i0.design with
        | none =>
          rw [hfv] at h0
          dsimp only at h0
          exact absurd h0 (by decide)
        | some variant =>
          rw [hfv] at h0
          dsimp only at h0
          have hstk : ¬(variant.stock < (i0.quantity : Int)) := by simpa using h0
          obtain ⟨⟨vs, sub⟩, hv⟩ := ih (fun j hj => h j (List.mem_cons_of_mem _ hj))
          unfold validateItems
          rw [hfp]
          dsimp only
          rw [if_neg hact, hfv]
          dsimp only
          rw [if_neg hstk, hv]
          exact ⟨_, rfl⟩

theorem validateItems_price_blind (ps : List Product) (items1 items2 : List CartItemReq)
    (h : List.Forall₂ sameIgnoringPrice items1 items2) :
    validateItems ps items1 = validateItems ps items2 := by
  induction h with
  | nil => rfl
  | cons hpair hrest ih =>
    obtain ⟨h1, h2, h3, h4⟩ := hpair
    unfold validateItems
    rw [h1, h2, h3, h4, ih]

theorem forall2_any_eq (p : CartItemReq → Bool)
    (hp : ∀ i j, sameIgnoringPrice i j → p i = p j) :
    ∀ (l1 l2 : List CartItemReq), List.Forall₂ sameIgnoringPrice l1 l2 →
      l1.any p = l2.any p := by
  intro l1 l2 h
  induction h with
  | nil => rfl
  | cons hpair hrest ih => simp [List.any_cons, hp _ _ hpair, ih]

theorem forall2_isEmpty_eq : ∀ (l1 l2 : List CartItemReq),
    List.Forall₂ sameIgnoringPrice l1 l2 → l1.isEmpty = l2.isEmpty := by
  intro l1 l2 h
  cases h with
  | nil => rfl
  | cons _ _ => rfl

/-! ### Claim theorems: cart validation -/

/-- C1: every response of `POST /cart/validate` satisfies the total formula:
with S the subtotal determined by the returned server-priced lines, the
returned subtotal is S rounded to two decimals, tax is 8% of S rounded to two
decimals, shipping is 0 exactly when S reaches the 50 waiver threshold and
9.99 otherwise, and total is S + tax + shipping − discount (discount 0)
rounded to two decimals. -/
theorem validate_totals (isMongoId : String → Bool) (ps : List Product)
    (items : List CartItemReq) (r : ValidateResp)
    (h : validateCart isMongoId ps items = .ok r) :
    r.subtotal = round2 (itemsSubtotal r.items) ∧
    r.tax = round2 ((8 / 100) * itemsSubtotal r.items) ∧
    r.shipping = (if 50 ≤ itemsSubtotal r.items then (0 : ℚ) else 999 / 100) ∧
    r.total = round2 (itemsSubtotal r.items + (8 / 100) * itemsSubtotal r.items +
      (if 50 ≤ itemsSubtotal r.items then (0 : ℚ) else 999 / 100) - 0) := by
  unfold validateCart at h
  split at h
  · cases h
  · split at h
    · cases h
    · split at h
      · cases h
      · split at h
        · cases h
        next vs sub hrec =>
          have hsub := validateItems_ok_subtotal ps items vs sub hrec
          dsimp only at h
          simp only [Except.ok.injEq] at h
          subst h
          dsimp only
          rw [← hsub]
          refine ⟨rfl, ?_, ?_, ?_⟩
          · rw [mul_comm sub (8 / 100)]
          · by_cases hc : 50 ≤ sub
            · rw [if_pos hc]
              norm_num [round2]
            · rw [if_neg hc]
              norm_num [round2]
          · have he : sub + sub * (8 / 100) + (if 50 ≤ sub then (0 : ℚ) else 999 / 100)
                = sub + 8 / 100 * sub +
                  (if 50 ≤ sub then (0 : ℚ) else 999 / 100) - 0 := by ring
            rw [he]

theorem validate_totals_witness :
    sampleResp.subtotal = round2 (itemsSubtotal sampleResp.items) ∧
    sampleResp.tax = round2 ((8 / 100) * itemsSubtotal sampleResp.items) ∧
    sampleResp.shipping = (if 50 ≤ itemsSubtotal sampleResp.items then (0 : ℚ)
      else 999 / 100) ∧
    sampleResp.total = round2 (itemsSubtotal sampleResp.items +
      (8 / 100) * itemsSubtotal sampleResp.items +
      (if 50 ≤ itemsSubtotal sampleResp.items then (0 : ℚ) else 999 / 100) - 0) :=
  validate_totals (fun _ => true) [sampleProduct] [sampleReqGood] sampleResp
    (by
      simp [validateCart, validateItems, findProduct, findVariant, primaryImage,
        jsOrStr, sampleProduct, sampleReqGood, sampleVariant, sampleResp,
        sampleRespItem, List.find?, round2]
      norm_num)

/-- C6: `POST /cart/validate` returns an error whenever some submitted line
has a missing or inactive product, a missing (size, design) variant, or a
quantity exceeding the variant's current stock (so in particular every
quantity over stock is rejected); and when the request passes the field
validators and no line fails any of those checks, it returns the validated
priced list. -/
theorem validate_rejects_invalid_items (isMongoId : String → Bool)
    (ps : List Product) (items : List CartItemReq) :
    ((∃ i ∈ items, itemFails ps i = true) →
      exceptOk (validateCart isMongoId ps items) = false) ∧
    (items ≠ [] →
      (∀ i ∈ items, isMongoId i.productId = true) →
      (∀ i ∈ items, 1 ≤ i.quantity ∧ i.quantity ≤ 10) →
      (∀ i ∈ items, itemFails ps i = false) →
      exceptOk (validateCart isMongoId ps items) = true) := by
  constructor
  · intro hex
    unfold validateCart
    by_cases he : items.isEmpty = true
    · rw [if_pos he]
      rfl
    · rw [if_neg he]
      by_cases hm : (items.any fun i => !(isMongoId i.productId)) = true
      · rw [if_pos hm]
        rfl
      · rw [if_neg hm]
        by_cases hq : (items.any fun i => i.quantity < 1 || 10 < i.quantity) = true
        · rw [if_pos hq]
          rfl
        · rw [if_neg hq]
          obtain ⟨e, he2⟩ := validateItems_error_of_fails ps items hex
          rw [he2]
          rfl
  · intro hne hmongo hquant hfails
    unfold validateCart
    have he : items.isEmpty = false := by
      cases items with
      | nil => cases hne rfl
      | cons a l => rfl
    rw [if_neg (by simp [he])]
    have hm : (items.any fun i => !(isMongoId i.productId)) = false := by
      rw [List.any_eq_false]
      intro i hi
      simp [hmongo i hi]
    rw [if_neg (by simp [hm])]
    have hq : (items.any fun i => i.quantity < 1 || 10 < i.quantity) = false := by
      rw [List.any_eq_false]
      intro i hi
      have h2 := hquant i hi
      simp only [Bool.or_eq_true, decide_eq_true_eq, not_or]
      omega
    rw [if_neg (by rw [hq]; decide)]
    obtain ⟨⟨vs, sub⟩, hv⟩ := validateItems_ok_of_no_fails ps items hfails
    rw [hv]
    rfl

theorem validate_rejects_invalid_items_witness :
    exceptOk (validateCart (fun _ => true) [sampleProduct] [sampleReqBad]) = false ∧
    exceptOk (validateCart (fun _ => true) [sampleProduct] [sampleReqGood]) = true :=
  ⟨(validate_rejects_invalid_items (fun _ => true) [sampleProduct] [sampleReqBad]).1
      ⟨sampleReqBad, by decide, by decide⟩,
   (validate_rejects_invalid_items (fun _ => true) [sampleProduct] [sampleReqGood]).2
      (by decide) (by decide) (by decide) (by decide)⟩

/-- C8: the prices a client attaches to submitted cart lines never influence
`POST /cart/validate`: two requests that agree on product ids, variants and
quantities — differing arbitrarily in attached prices — get identical
responses, every validated line priced from the stored product record. -/
theorem validate_ignores_client_price (isMongoId : String → Bool) (ps : List Product)
    (items1 items2 : List CartItemReq)
    (h : List.Forall₂ sameIgnoringPrice items1 items2) :
    validateCart isMongoId ps items1 = validateCart isMongoId ps items2 := by
  unfold validateCart
  rw [forall2_isEmpty_eq items1 items2 h]
  rw [forall2_any_eq (fun i => !(isMongoId i.productId))
    (fun i j hij => by dsimp only; rw [hij.1]) items1 items2 h]
  rw [forall2_any_eq (fun i => i.quantity < 1 || 10 < i.quantity)
    (fun i j hij => by dsimp only; rw [hij.2.2.2]) items1 items2 h]
  rw [validateItems_price_blind ps items1 items2 h]

theorem validate_ignores_client_price_witness :
    validateCart (fun _ => true) [sampleProduct] [sampleReqGood] =
      validateCart (fun _ => true) [sampleProduct] [sampleReqGoodPricey] :=
  validate_ignores_client_price (fun _ => true) [sampleProduct] _ _
    (List.Forall₂.cons ⟨rfl, rfl, rfl, rfl⟩ List.Forall₂.nil)


/-! ### Lemmas about decimal digit strings -/

theorem natDigs_eq_lt {n : Nat} (h : n < 10) : natDigs n = [Char.ofNat (48 + n)] := by
  rw [natDigs]
  rw [dif_pos h]

theorem natDigs_eq_ge {n : Nat} (h : 10 ≤ n) :
    natDigs n = natDigs (n / 10) ++ [Char.ofNat (48 + n % 10)] := by
  rw [natDigs]
  rw [dif_neg (by omega)]

theorem natDigs_length_pos (n : Nat) : 1 ≤ (natDigs n).length := by
  by_cases h : n < 10
  · rw [natDigs_eq_lt h]
    simp
  · rw [natDigs_eq_ge (by omega)]
    simp

theorem natDigs_length_le {k : Nat} : ∀ n, n < 10 ^ k → 1 ≤ k → (natDigs n).length ≤ k := by
  induction k with
  | zero => intro n _ h1; omega
  | succ k ih =>
    intro n h _
    by_cases hn : n < 10
    · rw [natDigs_eq_lt hn]
      simp
    · rw [natDigs_eq_ge (by omega)]
      have hdiv : n / 10 < 10 ^ k := by
        apply Nat.div_lt_of_lt_mul
        rw [← pow_succ']
        exact h
      have hk1 : 1 ≤ k := by
        rcases Nat.eq_zero_or_pos k with rfl | hk
        · norm_num at h
          omega
        · exact hk
      have hih := ih (n / 10) hdiv hk1
      simp [List.length_append]
      omega

theorem padZeros_length (n : Nat) (s : String) :
    (padZeros n s).length = max n s.length := by
  show (List.replicate (n - s.data.length) '0' ++ s.data).length = max n s.data.length
  simp [List.length_append, List.length_replicate]
  omega

theorem lastTwo_natToStr {y : Nat} (hy : 10 ≤ y) :
    lastChars 2 (natToStr y) = padZeros 2 (natToStr (y % 100)) := by
  by_cases hlt : y < 100
  · have h10 : y / 10 < 10 := by omega
    have e1 : natDigs y = [Char.ofNat (48 + y / 10), Char.ofNat (48 + y % 10)] := by
      rw [natDigs_eq_ge hy, natDigs_eq_lt h10]
      rfl
    have e2 : y % 100 = y := Nat.mod_eq_of_lt hlt
    show (⟨(natDigs y).drop ((natDigs y).length - 2)⟩ : String) =
      ⟨List.replicate (2 - (natDigs (y % 100)).length) '0' ++ natDigs (y % 100)⟩
    rw [e2, e1]
    simp
  · have h1 : 10 ≤ y / 10 := by omega
    have e1 : natDigs y = natDigs (y / 100) ++
        [Char.ofNat (48 + y / 10 % 10), Char.ofNat (48 + y % 10)] := by
      rw [natDigs_eq_ge hy, natDigs_eq_ge h1]
      have : y / 10 / 10 = y / 100 := by omega
      rw [this, List.append_assoc]
      rfl
    show (⟨(natDigs y).drop ((natDigs y).length - 2)⟩ : String) =
      ⟨List.replicate (2 - (natDigs (y % 100)).length) '0' ++ natDigs (y % 100)⟩
    rw [e1]
    have hdrop : (natDigs (y / 100) ++
        [Char.ofNat (48 + y / 10 % 10), Char.ofNat (48 + y % 10)]).drop
          ((natDigs (y / 100) ++
            [Char.ofNat (48 + y / 10 % 10), Char.ofNat (48 + y % 10)]).length - 2) =
        [Char.ofNat (48 + y / 10 % 10), Char.ofNat (48 + y % 10)] := by
      rw [List.length_append]
      simp only [List.length_cons, List.length_nil]
      have : (natDigs (y / 100)).length + (1 + 1) - 2 = (natDigs (y / 100)).length := by
        omega
      rw [this]
      exact List.drop_left _ _
    rw [hdrop]
    by_cases hm : y % 100 < 10
    · have hz : y / 10 % 10 = 0 := by omega
      have hyy : y % 100 = y % 10 := by omega
      rw [natDigs_eq_lt hm, hyy, hz]
      simp
    · have e3 : y % 100 / 10 = y / 10 % 10 := by omega
      have e4 : y % 100 % 10 = y % 10 := by omega
      have h5 : y % 100 / 10 < 10 := by omega
      rw [natDigs_eq_ge (by omega : 10 ≤ y % 100), natDigs_eq_lt h5, e3, e4]
      simp

theorem parseIntJs_all_digits (s : String) (hne : s.data ≠ [])
    (h : ∀ c ∈ s.data, c.isDigit = true) :
    parseIntJs s = some (digitsVal s) := by
  unfold parseIntJs digitsVal
  have htw : s.data.takeWhile Char.isDigit = s.data :=
    List.takeWhile_eq_self_iff.mpr h
  dsimp only
  rw [htw]
  rw [if_neg (by simp [List.isEmpty_iff, hne])]

theorem lastChars_data (n : Nat) (s : String) :
    (lastChars n s).data = s.data.drop (s.data.length - n) := rfl

theorem lastChars_length_of_le {n : Nat} {s : String} (h : n ≤ s.length) :
    (lastChars n s).data.length = n := by
  rw [lastChars_data, List.length_drop]
  have hl : s.length = s.data.length := rfl
  omega

/-! ### Claim theorem: order number generation -/

/-- C7: for a new order saved without a number, the generated order number is
`ORD`, the two-digit year (year mod 100 zero-padded), two-digit month,
two-digit day, and the daily sequence zero-padded to three digits, where the
sequence is 001 when no order exists since local midnight and otherwise one
greater than the numeric value of the last three digits of the most recent
such order's number; the year/month/day fields are two characters (for
calendar values) and the sequence field is three characters while the
sequence stays below 1000. -/
theorem order_number_format (year month day midnight : Nat) (orders : List Order)
    (hy : 10 ≤ year) :
    (lastOrderToday orders midnight = none →
      genOrderNumber year month day midnight orders =
        "ORD" ++ padZeros 2 (natToStr (year % 100)) ++ padZeros 2 (natToStr month) ++
          padZeros 2 (natToStr day) ++ padZeros 3 (natToStr 1)) ∧
    (∀ o num, lastOrderToday orders midnight = some o → o.orderNumber = some num →
      3 ≤ num.length → (∀ c ∈ (lastChars 3 num).data, c.isDigit = true) →
      genOrderNumber year month day midnight orders =
        "ORD" ++ padZeros 2 (natToStr (year % 100)) ++ padZeros 2 (natToStr month) ++
          padZeros 2 (natToStr day) ++
          padZeros 3 (natToStr (digitsVal (lastChars 3 num) + 1))) ∧
    ((padZeros 2 (natToStr (year % 100))).length = 2 ∧
      (month ≤ 99 → (padZeros 2 (natToStr month)).length = 2) ∧
      (day ≤ 99 → (padZeros 2 (natToStr day)).length = 2) ∧
      (∀ k, k ≤ 999 → (padZeros 3 (natToStr k)).length = 3)) := by
  have hpad2 : ∀ m : Nat, m ≤ 99 → (padZeros 2 (natToStr m)).length = 2 := by
    intro m hm
    rw [padZeros_length]
    have hle : (natDigs m).length ≤ 2 := by
      apply natDigs_length_le m (by norm_num; omega)
      omega
    have hpos := natDigs_length_pos m
    have : (natToStr m).length = (natDigs m).length := rfl
    omega
  have hpad3 : ∀ k : Nat, k ≤ 999 → (padZeros 3 (natToStr k)).length = 3 := by
    intro k hk
    rw [padZeros_length]
    have hle : (natDigs k).length ≤ 3 := by
      apply natDigs_length_le k (by norm_num; omega)
      omega
    have hpos := natDigs_length_pos k
    have : (natToStr k).length = (natDigs k).length := rfl
    omega
  refine ⟨?_, ?_, hpad2 (year % 100) (by omega), hpad2 month, hpad2 day, hpad3⟩
  · intro hnone
    unfold genOrderNumber
    rw [hnone]
    dsimp only
    rw [lastTwo_natToStr hy]
  · intro o num hlast hnum hlen hdigits
    unfold genOrderNumber
    rw [hlast]
    dsimp only
    rw [hnum]
    dsimp only
    have hne : (lastChars 3 num).data ≠ [] := by
      have h3 : (lastChars 3 num).data.length = 3 := lastChars_length_of_le (by omega)
      intro hcon
      rw [hcon] at h3
      cases h3
    rw [parseIntJs_all_digits (lastChars 3 num) hne hdigits]
    dsimp only
    rw [lastTwo_natToStr hy]


theorem order_number_format_witness :
    genOrderNumber 2025 10 11 0 [] =
      "ORD" ++ padZeros 2 (natToStr (2025 % 100)) ++ padZeros 2 (natToStr 10) ++
        padZeros 2 (natToStr 11) ++ padZeros 3 (natToStr 1) :=
  (order_number_format 2025 10 11 0 [] (by decide)).1 (by decide)

end WebNail
